import Mathlib

/-!
Verification development for the dependency-graph core of the repository
(`src/services/dependencyService.ts`): per-language import extraction
and import-path resolution against a virtual slash-delimited file
namespace, orchestrated by `generateDependencyGraph`.

Strings are processed as `List Char`; JavaScript `String.prototype.split`,
`endsWith`, `replace` with the concrete regexes of the source, and the two
global-regex extraction loops are embedded as explicit character-level
scanners with the exact matching semantics of the source's regexes.
The TypeScript compiler's `ts.createSourceFile` plus the AST walk of
`parseJsTsImports` live in an external library; their combined outcome is
abstracted as an oracle argument (`AstOracle`) returning either the list of
collected module specifiers or an error, which is what the surrounding
`try`/`catch` of the source observes.
-/

/-- The `type` field of `FileContext` (string union in `types.ts`):
`'file'` marks code files, the rest are non-code kinds. -/
inductive FileType where
  | file
  | image
  | log
  | metric
  | issue
deriving DecidableEq, Repr

/-- A file record as consumed by `generateDependencyGraph`: the fields of
`FileContext` that the dependency service reads (`name` is the full virtual
path and serves as the file id, `type` the kind, `content` the raw text). -/
structure FileContext where
  name : String
  type : FileType
  content : String
deriving DecidableEq, Repr

/-- A graph node as built by `generateDependencyGraph`
(`id = name = file.name`, `val = 1`). -/
structure GraphNode where
  id : String
  name : String
  type : FileType
  val : Nat
deriving DecidableEq, Repr

/-- A directed edge `source imports target` (the `links` entries). -/
structure GraphLink where
  source : String
  target : String
deriving DecidableEq, Repr

/-- The result record `DependencyGraphData` (`nodes` + `links`). -/
structure DependencyGraphData where
  nodes : List GraphNode
  links : List GraphLink
deriving DecidableEq, Repr

/-- Strip a literal character sequence from the front of a list:
`some rest` on success, `none` if the list does not start with `lit`. -/
def dropLit : List Char → List Char → Option (List Char)
  | [], cs => some cs
  | _ :: _, [] => none
  | p :: ps, c :: cs => if c = p then dropLit ps cs else none

/-- JavaScript `s.split(sep)` for a single-character separator: always
returns at least one (possibly empty) segment, keeps empty segments. -/
def splitOnChar (sep : Char) : List Char → List (List Char)
  | [] => [[]]
  | c :: cs =>
    match splitOnChar sep cs with
    | [] => [[]]
    | h :: t => if c = sep then [] :: h :: t else (c :: h) :: t

/-- JavaScript `s.endsWith(suf)`. -/
def endsWithS (s suf : String) : Bool :=
  (dropLit suf.toList.reverse s.toList.reverse).isSome

/-- JavaScript `importPath.startsWith('.')`. -/
def startsWithDot (s : String) : Bool :=
  match s.toList with
  | c :: _ => c = '.'
  | [] => false

/-- `file.replace(/\.[^/.]+$/, "")`: drop a trailing `.ext` where `ext` is a
non-empty run of characters other than `.` and `/`; otherwise unchanged. -/
def stripExt (file : String) : String :=
  let rev := file.toList.reverse
  let run := rev.takeWhile (fun c => !(c = '.' || c = '/'))
  let rest := rev.dropWhile (fun c => !(c = '.' || c = '/'))
  match rest with
  | '.' :: rest2 => if run.isEmpty then file else String.mk rest2.reverse
  | _ => file

/-- The fixed probe order of the relative strategy:
`['', '.ts', '.tsx', '.js', '.jsx', '/index.ts', '/index.tsx']`. -/
def extensionsList : List String :=
  ["", ".ts", ".tsx", ".js", ".jsx", "/index.ts", "/index.tsx"]

/-- JavaScript `parts.join('/')`. -/
def joinSlash : List (List Char) → List Char
  | [] => []
  | [x] => x
  | x :: xs => x ++ '/' :: joinSlash xs

/-- The resolved base path of the relative strategy of `resolveImport`:
drop the source's last `/`-segment, then fold the import's segments
(`.` skipped, `..` pops when non-empty, anything else pushed), and re-join
with `/`. -/
def relativeBase (sourceFile importPath : String) : String :=
  let sourceDirParts := (splitOnChar '/' sourceFile.toList).dropLast
  let importParts := splitOnChar '/' importPath.toList
  let stack := importParts.foldl
    (fun st part =>
      if part = ['.'] then st
      else if part = ['.', '.'] then st.dropLast
      else st ++ [part]) sourceDirParts
  String.mk (joinSlash stack)

/-- The candidate strings probed by the relative strategy, in probe order. -/
def relativeCandidates (sourceFile importPath : String) : List String :=
  extensionsList.map (fun ext => relativeBase sourceFile importPath ++ ext)

/-- `importPath.split('/').pop()` — the last `/`-segment of the import. -/
def importBaseOf (importPath : String) : List Char :=
  (splitOnChar '/' importPath.toList).getLastD []

/-- The predicate of the basename-suffix fallback: the extension-stripped
file id ends with `importPath` or with `'/' + importPath`. -/
def basenameMatch (importPath : String) (file : String) : Bool :=
  endsWithS (stripExt file) importPath || endsWithS (stripExt file) ("/" ++ importPath)

/-- `resolveImport(sourceFile, importPath, allFiles)`: relative resolution
(only for imports starting with `.`), then exact match, then the
basename-suffix fallback scanning `allFiles` in insertion order.
`allFiles` models the JS `Set` by a list in insertion order; the `Set` is
only observed through `has` and first-match iteration, both of which are
insensitive to deduplication of equal strings. -/
def resolveImport (sourceFile importPath : String) (allFiles : List String) :
    Option String :=
  match (if startsWithDot importPath then
      (relativeCandidates sourceFile importPath).find? (fun c => allFiles.contains c)
    else none) with
  | some t => some t
  | none =>
    if allFiles.contains importPath then some importPath
    else if (importBaseOf importPath).isEmpty then none
    else allFiles.find? (basenameMatch importPath)

/-- JavaScript regex `\s` (whitespace class). -/
def isJsWs (c : Char) : Bool :=
  c = ' ' || c = '\t' || c = '\n' || c = '\r' ||
  c = Char.ofNat 11 || c = Char.ofNat 12 || c = Char.ofNat 160 ||
  c = Char.ofNat 0x1680 ||
  (Char.ofNat 0x2000 ≤ c && c ≤ Char.ofNat 0x200a) ||
  c = Char.ofNat 0x2028 || c = Char.ofNat 0x2029 || c = Char.ofNat 0x202f ||
  c = Char.ofNat 0x205f || c = Char.ofNat 0x3000 || c = Char.ofNat 0xfeff

/-- Line terminators recognised by a multiline `^` anchor in JavaScript. -/
def isNl (c : Char) : Bool :=
  c = '\n' || c = '\r' || c = Char.ofNat 0x2028 || c = Char.ofNat 0x2029

/-- A quote character of the class `['"]`. -/
def isQuote (c : Char) : Bool :=
  c = Char.ofNat 34 || c = Char.ofNat 39

/-- Matches `from\s+(\S+)\s+import` anchored at the head of the input:
returns the capture (the maximal non-whitespace run) and the remainder
after the whole match. Greedy `\S+`/`\s+` cannot backtrack usefully here
because each boundary separates a whitespace run from a non-whitespace
character, so maximal-run munching is exact. -/
def matchFromAt (cs : List Char) : Option (List Char × List Char) :=
  match dropLit ['f', 'r', 'o', 'm'] cs with
  | none => none
  | some r0 =>
    if (r0.takeWhile isJsWs).isEmpty then none
    else
      let r1 := r0.dropWhile isJsWs
      let cap := r1.takeWhile (fun c => !isJsWs c)
      if cap.isEmpty then none
      else
        let r2 := r1.dropWhile (fun c => !isJsWs c)
        if (r2.takeWhile isJsWs).isEmpty then none
        else
          match dropLit ['i', 'm', 'p', 'o', 'r', 't'] (r2.dropWhile isJsWs) with
          | none => none
          | some r4 => some (cap, r4)

/-- Matches `import\s+(\S+)` anchored at the head of the input: returns the
capture and the remainder after the match. -/
def matchImpAt (cs : List Char) : Option (List Char × List Char) :=
  match dropLit ['i', 'm', 'p', 'o', 'r', 't'] cs with
  | none => none
  | some r0 =>
    if (r0.takeWhile isJsWs).isEmpty then none
    else
      let r1 := r0.dropWhile isJsWs
      let cap := r1.takeWhile (fun c => !isJsWs c)
      if cap.isEmpty then none
      else some (cap, r1.dropWhile (fun c => !isJsWs c))

/-- The global-`exec` loop of `while ((match = pyFromRegex.exec(content)))`:
try a match at every position left to right; a successful match records its
capture and resumes at the match's end (`skip` counts positions still inside
the previous match). -/
def pyFromGo : Nat → List Char → List String
  | _, [] => []
  | skip + 1, _ :: cs => pyFromGo skip cs
  | 0, c :: cs =>
    match matchFromAt (c :: cs) with
    | some (cap, r) =>
      String.mk cap :: pyFromGo ((c :: cs).length - r.length - 1) cs
    | none => pyFromGo 0 cs

/-- The global-`exec` loop for `/^import\s+(\S+)/gm`: like `pyFromGo` but a
match may only start at the beginning of the content or right after a line
terminator (`atStart` tracks the multiline `^` anchor). -/
def pyImpGo : Nat → Bool → List Char → List String
  | _, _, [] => []
  | skip + 1, _, c :: cs => pyImpGo skip (isNl c) cs
  | 0, atStart, c :: cs =>
    if atStart then
      match matchImpAt (c :: cs) with
      | some (cap, r) =>
        String.mk cap :: pyImpGo ((c :: cs).length - r.length - 1) (isNl c) cs
      | none => pyImpGo 0 (isNl c) cs
    else pyImpGo 0 (isNl c) cs

/-- All captures of `/from\s+(\S+)\s+import/g` over the content, text order. -/
def pyFromMatches (content : String) : List String :=
  pyFromGo 0 content.toList

/-- All captures of `/^import\s+(\S+)/gm` over the content, text order. -/
def pyImpMatches (content : String) : List String :=
  pyImpGo 0 true content.toList

/-- `parsePythonImports(content)`: the two `while`-loops push every `from`
capture, then every line-anchored `import` capture, into one array. -/
def parsePythonImports (content : String) : List String :=
  pyFromMatches content ++ pyImpMatches content

/-- The sub-pattern `from\s+['"]([^'"]+)['"]` anchored at the head: literal
`from`, one or more whitespace, a quote, a non-empty maximal run of
non-quote characters (the capture), and any quote character. -/
def subFromQuote (cs : List Char) : Option (List Char × List Char) :=
  match dropLit ['f', 'r', 'o', 'm'] cs with
  | none => none
  | some r0 =>
    if (r0.takeWhile isJsWs).isEmpty then none
    else
      match r0.dropWhile isJsWs with
      | [] => none
      | q :: r1 =>
        if isQuote q then
          let cap := r1.takeWhile (fun c => !isQuote c)
          if cap.isEmpty then none
          else
            match r1.dropWhile (fun c => !isQuote c) with
            | q2 :: r2 => if isQuote q2 then some (cap, r2) else none
            | [] => none
        else none

/-- The lazy gap `[\s\S]*?` before the `from …` sub-pattern: the earliest
position at which `subFromQuote` succeeds wins. -/
def findFromQuote : List Char → Option (List Char × List Char)
  | [] => none
  | c :: cs =>
    match subFromQuote (c :: cs) with
    | some x => some x
    | none => findFromQuote cs

/-- One attempt of the fallback regex
`import\s+[\s\S]*?from\s+['"]([^'"]+)['"]|import\s+['"]([^'"]+)['"]`
anchored at the head of the input: ordered alternation, branch one with its
lazy gap explored fully before branch two is tried. -/
def fbMatchAt (cs : List Char) : Option (List Char × List Char) :=
  match dropLit ['i', 'm', 'p', 'o', 'r', 't'] cs with
  | none => none
  | some r0 =>
    if (r0.takeWhile isJsWs).isEmpty then none
    else
      let r1 := r0.dropWhile isJsWs
      match findFromQuote r1 with
      | some x => some x
      | none =>
        match r1 with
        | [] => none
        | q :: r2 =>
          if isQuote q then
            let cap := r2.takeWhile (fun c => !isQuote c)
            if cap.isEmpty then none
            else
              match r2.dropWhile (fun c => !isQuote c) with
              | q2 :: r3 => if isQuote q2 then some (cap, r3) else none
              | [] => none
          else none

/-- The global-`exec` loop of `fallbackRegexExtract`. -/
def fbGo : Nat → List Char → List String
  | _, [] => []
  | skip + 1, _ :: cs => fbGo skip cs
  | 0, c :: cs =>
    match fbMatchAt (c :: cs) with
    | some (cap, r) =>
      String.mk cap :: fbGo ((c :: cs).length - r.length - 1) cs
    | none => fbGo 0 cs

/-- `fallbackRegexExtract(content)`: every capture of the fallback regex in
text order (`match[1] || match[2]` always picks the branch that matched,
both captures being non-empty by construction). -/
def fallbackRegexExtract (content : String) : List String :=
  fbGo 0 content.toList

/-- The outcome of `ts.createSourceFile` plus the AST walk of
`parseJsTsImports` (external TypeScript library): applied to the file name
and the content, it either yields the collected module-specifier list or
raises an error — exactly what the `try`/`catch` of the source observes. -/
def AstOracle : Type :=
  String → String → Except String (List String)

/-- `parseJsTsImports(content, fileName)`: the `try` block's result on
success; on any error the `catch` returns `fallbackRegexExtract(content)`
instead (partial results of the aborted walk are discarded). -/
def parseJsTsImports (ast : AstOracle) (content fileName : String) :
    List String :=
  match ast fileName content with
  | Except.ok imports => imports
  | Except.error _ => fallbackRegexExtract content

/-- The parser-selection regex `\.(ts|tsx|js|jsx)$` of the graph builder. -/
def jsTsSuffix (name : String) : Bool :=
  endsWithS name ".ts" || endsWithS name ".tsx" ||
  endsWithS name ".js" || endsWithS name ".jsx"

/-- Step 1 of the graph builder for one code file: choose the parser by
filename suffix (`.ts/.tsx/.js/.jsx` structured, `.py` regex, else none). -/
def importsOf (ast : AstOracle) (f : FileContext) : List String :=
  if jsTsSuffix f.name then parseJsTsImports ast f.content f.name
  else if endsWithS f.name ".py" then parsePythonImports f.content
  else []

/-- `generateDependencyGraph(files)`: one node per file in input order,
`filePaths` the id set in insertion order, and for each code file every
extracted import resolved and pushed as a link when resolution succeeds.
The guard `if (target)` is a JavaScript truthiness check, so a resolution
returning the empty-string file id is dropped just like a failed one. -/
def generateDependencyGraph (ast : AstOracle) (files : List FileContext) :
    DependencyGraphData :=
  let nodes := files.map (fun f => GraphNode.mk f.name f.name f.type 1)
  let filePaths := files.map (fun f => f.name)
  let links := files.foldl
    (fun acc file =>
      if file.type = FileType.file then
        (importsOf ast file).foldl
          (fun acc2 imp =>
            match resolveImport file.name imp filePaths with
            | some target =>
              if target = "" then acc2 else acc2 ++ [GraphLink.mk file.name target]
            | none => acc2) acc
      else acc) []
  DependencyGraphData.mk nodes links

/-- The links contributed by one file: empty for non-code files, otherwise
one link per extracted import whose resolution succeeds with a truthy
(non-empty) target, in extraction order. -/
def fileEdges (ast : AstOracle) (known : List String) (f : FileContext) :
    List GraphLink :=
  if f.type = FileType.file then
    (importsOf ast f).filterMap
      (fun imp =>
        match resolveImport f.name imp known with
        | some target =>
          if target = "" then none else some (GraphLink.mk f.name target)
        | none => none)
  else []

lemma contains_mem {l : List String} {a : String} (h : l.contains a = true) :
    a ∈ l :=
  List.elem_iff.mp h

lemma resolveImport_mem {s i t : String} {known : List String}
    (h : resolveImport s i known = some t) : t ∈ known := by
  unfold resolveImport at h
  cases hrel : (if startsWithDot i then
      (relativeCandidates s i).find? (fun c => known.contains c)
    else none) with
  | some c =>
    rw [hrel] at h
    injection h with h
    subst h
    by_cases hd : startsWithDot i
    · rw [if_pos hd] at hrel
      exact contains_mem (List.find?_some hrel)
    · rw [if_neg hd] at hrel
      cases hrel
  | none =>
    rw [hrel] at h
    by_cases hc : known.contains i
    · rw [if_pos hc] at h
      injection h with h
      subst h
      exact contains_mem hc
    · rw [if_neg hc] at h
      by_cases hb : (importBaseOf i).isEmpty
      · rw [if_pos hb] at h
        cases h
      · rw [if_neg hb] at h
        exact List.mem_of_find?_eq_some h

lemma foldl_resolve_eq (n : String) (known : List String)
    (imports : List String) :
    ∀ acc : List GraphLink,
      imports.foldl
        (fun acc2 imp =>
          match resolveImport n imp known with
          | some target =>
            if target = "" then acc2 else acc2 ++ [GraphLink.mk n target]
          | none => acc2) acc
      = acc ++ imports.filterMap
          (fun imp =>
            match resolveImport n imp known with
            | some target =>
              if target = "" then none else some (GraphLink.mk n target)
            | none => none) := by
  induction imports with
  | nil => intro acc; simp
  | cons imp rest ih =>
    intro acc
    cases hr : resolveImport n imp known with
    | some t =>
      by_cases ht : t = ""
      · simp [List.foldl_cons, hr, ht, ih, List.filterMap_cons]
      · simp [List.foldl_cons, hr, ht, ih, List.filterMap_cons]
    | none => simp [List.foldl_cons, hr, ih, List.filterMap_cons]

lemma foldl_files_eq (ast : AstOracle) (known : List String)
    (fs : List FileContext) :
    ∀ acc : List GraphLink,
      fs.foldl
        (fun acc file =>
          if file.type = FileType.file then
            (importsOf ast file).foldl
              (fun acc2 imp =>
                match resolveImport file.name imp known with
                | some target =>
                  if target = "" then acc2
                  else acc2 ++ [GraphLink.mk file.name target]
                | none => acc2) acc
          else acc) acc
      = acc ++ fs.flatMap (fileEdges ast known) := by
  induction fs with
  | nil => intro acc; simp
  | cons f rest ih =>
    intro acc
    rw [List.foldl_cons, ih, List.flatMap_cons]
    by_cases hf : f.type = FileType.file
    · simp only [if_pos hf, foldl_resolve_eq, fileEdges]
      simp [List.append_assoc]
    · simp only [if_neg hf, fileEdges]
      simp

lemma links_eq_flatMap (ast : AstOracle) (files : List FileContext) :
    (generateDependencyGraph ast files).links
      = files.flatMap (fileEdges ast (files.map (fun f => f.name))) := by
  unfold generateDependencyGraph
  simp only [foldl_files_eq, List.nil_append]

lemma nodes_map_id (ast : AstOracle) (files : List FileContext) :
    (generateDependencyGraph ast files).nodes.map GraphNode.id
      = files.map (fun f => f.name) := by
  unfold generateDependencyGraph
  simp

example : splitOnChar '/' "a/b.ts".toList = [['a'], ['b', '.', 't', 's']] := by decide
example : splitOnChar '/' "".toList = [[]] := by decide
example : stripExt "src/components/Button.tsx" = "src/components/Button" := by decide
example : stripExt "a/b.c/d" = "a/b.c/d" := by decide
example : stripExt "a." = "a." := by decide
example : stripExt ".ts" = "" := by decide
example : relativeBase "src/x/a.ts" "../b" = "src/b" := by decide
example : relativeBase "src/a.ts" "./a" = "src/a" := by decide
example : resolveImport "src/a.ts" "./a" ["src/a.ts"] = some "src/a.ts" := by decide
example : resolveImport "src/x/a.ts" "../b" ["src/b.ts"] = some "src/b.ts" := by decide
example : resolveImport "x/y.ts" "./a/../b" ["./b"] = none := by decide
example : resolveImport "x/y.ts" "./b" ["./b"] = some "./b" := by decide
example : resolveImport "a.ts" "components/Button" ["src/components/Button.tsx"]
    = some "src/components/Button.tsx" := by decide
example : parsePythonImports "import os, sys" = ["os,"] := by decide
example : parsePythonImports "from pkg.mod import y" = ["pkg.mod"] := by decide
example : parsePythonImports "x = 1\nimport os\n import nope" = ["os"] := by decide
example : fallbackRegexExtract "import x from \"./a\"" = ["./a"] := by decide
example : fallbackRegexExtract "import \"./a\"" = ["./a"] := by decide
example : fallbackRegexExtract "import \"a\" blah from \"b\"" = ["b"] := by decide
example :
    (generateDependencyGraph (fun _ _ => Except.error "parse")
      [FileContext.mk "src/a.ts" FileType.file "import x from \"./b\"",
       FileContext.mk "src/b.ts" FileType.file ""]).links
      = [GraphLink.mk "src/a.ts" "src/b.ts"] := by decide
example : resolveImport "a.ts" "." ["a.ts", ""] = some "" := by decide
example :
    (generateDependencyGraph (fun _ _ => Except.error "parse")
      [FileContext.mk "a.ts" FileType.file "import x from \".\"",
       FileContext.mk "" FileType.file ""]).links = [] := by decide

/-- C1: for every input file list (and every outcome of the external AST
parser), every link in the returned graph has a source and a target that
equal the id of some node of the same result, and every link stems from
an import whose resolution succeeded — no link is emitted for an import
that fails resolution. -/
theorem graph_edges_closed (ast : AstOracle) (files : List FileContext)
    (e : GraphLink) (he : e ∈ (generateDependencyGraph ast files).links) :
    e.source ∈ (generateDependencyGraph ast files).nodes.map GraphNode.id ∧
    e.target ∈ (generateDependencyGraph ast files).nodes.map GraphNode.id ∧
    ∃ imp : String,
      resolveImport e.source imp (files.map (fun f => f.name)) = some e.target := by
  rw [links_eq_flatMap] at he
  rw [List.mem_flatMap] at he
  obtain ⟨f, hf, hef⟩ := he
  unfold fileEdges at hef
  by_cases ht : f.type = FileType.file
  · rw [if_pos ht] at hef
    rw [List.mem_filterMap] at hef
    obtain ⟨imp, himp, hres⟩ := hef
    cases hr : resolveImport f.name imp (files.map (fun f => f.name)) with
    | none => rw [hr] at hres; cases hres
    | some tgt =>
      rw [hr] at hres
      dsimp only at hres
      by_cases htgt : tgt = ""
      · rw [if_pos htgt] at hres
        cases hres
      · rw [if_neg htgt] at hres
        injection hres with hres
        subst hres
        refine ⟨?_, ?_, imp, ?_⟩
        · rw [nodes_map_id]
          exact List.mem_map_of_mem (fun f => f.name) hf
        · rw [nodes_map_id]
          exact resolveImport_mem hr
        · exact hr
  · rw [if_neg ht] at hef
    cases hef

/-- Witness for C1 at a concrete two-file input whose code file imports
`./b` (extracted by the regex fallback, the AST oracle erroring). -/
theorem graph_edges_closed_witness :
    GraphLink.mk "src/a.ts" "src/b.ts" ∈
      (generateDependencyGraph (fun _ _ => Except.error "parse")
        [FileContext.mk "src/a.ts" FileType.file "import x from \"./b\"",
         FileContext.mk "src/b.ts" FileType.file ""]).links ∧
    ((GraphLink.mk "src/a.ts" "src/b.ts").source ∈
      (generateDependencyGraph (fun _ _ => Except.error "parse")
        [FileContext.mk "src/a.ts" FileType.file "import x from \"./b\"",
         FileContext.mk "src/b.ts" FileType.file ""]).nodes.map GraphNode.id ∧
     (GraphLink.mk "src/a.ts" "src/b.ts").target ∈
      (generateDependencyGraph (fun _ _ => Except.error "parse")
        [FileContext.mk "src/a.ts" FileType.file "import x from \"./b\"",
         FileContext.mk "src/b.ts" FileType.file ""]).nodes.map GraphNode.id ∧
     ∃ imp : String,
       resolveImport (GraphLink.mk "src/a.ts" "src/b.ts").source imp
         (([FileContext.mk "src/a.ts" FileType.file "import x from \"./b\"",
            FileContext.mk "src/b.ts" FileType.file ""]).map (fun f => f.name))
         = some (GraphLink.mk "src/a.ts" "src/b.ts").target) :=
  ⟨by decide, graph_edges_closed _ _ _ (by decide)⟩

/-- C2: for every input file list the node list has exactly one node per
input file and the node ids are exactly the file ids in input order. -/
theorem graph_nodes_spec (ast : AstOracle) (files : List FileContext) :
    (generateDependencyGraph ast files).nodes.length = files.length ∧
    (generateDependencyGraph ast files).nodes.map GraphNode.id
      = files.map (fun f => f.name) := by
  constructor
  · unfold generateDependencyGraph
    simp
  · exact nodes_map_id ast files

/-- C3: for an import starting with `.`, whenever some candidate
`base + suffix` (suffixes probed in the fixed order of `extensionsList`
over the base path computed by the drop-last/fold rule) is a known id,
`resolveImport` returns the first such candidate. -/
theorem resolveImport_relative_first (s i : String) (known : List String)
    (hdot : startsWithDot i = true)
    (hhit : ∃ c ∈ relativeCandidates s i, known.contains c = true) :
    resolveImport s i known
      = (relativeCandidates s i).find? (fun c => known.contains c) := by
  obtain ⟨c, hc, hpc⟩ := hhit
  cases hfind : (relativeCandidates s i).find? (fun c => known.contains c) with
  | none =>
    exact absurd hpc (by simpa using (List.find?_eq_none.mp hfind c hc))
  | some t =>
    unfold resolveImport
    rw [hdot]
    simp only [if_true, hfind]

/-- Witness for C3: `../b` from `src/x/a.ts` against `plain ["src/b.ts"]`
resolves to the first hit `src/b.ts` (the `.ts` probe). -/
theorem resolveImport_relative_first_witness :
    resolveImport "src/x/a.ts" "../b" ["src/b.ts"]
      = (relativeCandidates "src/x/a.ts" "../b").find?
          (fun c => List.contains ["src/b.ts"] c) :=
  resolveImport_relative_first "src/x/a.ts" "../b" ["src/b.ts"] (by decide)
    ⟨"src/b.ts", by decide, by decide⟩

/-- C4: the C-family extractor never propagates an error: whenever the
syntax-tree construction/traversal (the AST oracle) errors, the extractor
returns the generic regex extraction over the same content instead. -/
theorem parseJsTsImports_catch (ast : AstOracle) (content fileName : String)
    (herr : ∃ e, ast fileName content = Except.error e) :
    parseJsTsImports ast content fileName = fallbackRegexExtract content := by
  obtain ⟨e, he⟩ := herr
  unfold parseJsTsImports
  rw [he]

/-- Witness for C4 at a concrete always-erroring oracle and content. -/
theorem parseJsTsImports_catch_witness :
    parseJsTsImports (fun _ _ => Except.error "boom") "const x = 1" "f.ts"
      = fallbackRegexExtract "const x = 1" :=
  parseJsTsImports_catch (fun _ _ => Except.error "boom") "const x = 1" "f.ts"
    ⟨"boom", rfl⟩

/-- C5: when the relative and exact-match strategies fail, resolution
fails if the last `/`-segment of the raw import is empty, and otherwise
returns the first known id (in insertion order) whose extension-stripped
form ends with the raw import or with `/` + the raw import. -/
theorem resolveImport_fallback_scan (s i : String) (known : List String)
    (hrel : startsWithDot i = true →
      (relativeCandidates s i).find? (fun c => known.contains c) = none)
    (hexact : known.contains i = false) :
    resolveImport s i known
      = if (importBaseOf i).isEmpty then none
        else known.find? (basenameMatch i) := by
  have hmem : i ∉ known := by
    intro hm
    rw [show known.contains i = true from List.elem_iff.mpr hm] at hexact
    cases hexact
  unfold resolveImport
  by_cases hd : startsWithDot i
  · rw [hd, if_pos rfl, hrel hd]
    simp [hmem]
  · rw [if_neg hd]
    simp [hmem]

/-- Witness for C5: the non-relative import `components/Button` against
`plain ["src/components/Button.tsx"]` hits the basename-suffix fallback. -/
theorem resolveImport_fallback_scan_witness :
    resolveImport "a.ts" "components/Button" ["src/components/Button.tsx"]
      = if (importBaseOf "components/Button").isEmpty then none
        else List.find? (basenameMatch "components/Button")
          ["src/components/Button.tsx"] :=
  resolveImport_fallback_scan "a.ts" "components/Button"
    ["src/components/Button.tsx"] (by decide) (by decide)

/-- C6: the Python extractor returns every capture of the
`from … import` pattern in text order, followed by every capture of the
line-anchored `import …` pattern in text order, concatenated without
deduplication. -/
theorem parsePythonImports_order (content : String) :
    parsePythonImports content = pyFromMatches content ++ pyImpMatches content :=
  rfl

/-- C7 counterexample: with the adversarial known-id set containing the
literal id `./b`, resolving `./a/../b` from `x/y.ts` (no relative hit;
exact match misses) differs from resolving `./b` (exact match hits). -/
theorem resolveImport_norm_cex :
    resolveImport "x/y.ts" "./a/../b" ["./b"]
      ≠ resolveImport "x/y.ts" "./b" ["./b"] := by
  decide

/-- C7 amended: whenever relative resolution of `./b` from `x/y.ts`
succeeds (some probed candidate is a known id), resolving `./a/../b` from
`x/y.ts` yields the same target as resolving `./b`. -/
theorem resolveImport_norm_relative (known : List String)
    (hhit : ((relativeCandidates "x/y.ts" "./b").find?
      (fun c => known.contains c)).isSome = true) :
    resolveImport "x/y.ts" "./a/../b" known
      = resolveImport "x/y.ts" "./b" known := by
  have hcand : relativeCandidates "x/y.ts" "./a/../b"
      = relativeCandidates "x/y.ts" "./b" := by decide
  obtain ⟨t, ht⟩ := Option.isSome_iff_exists.mp hhit
  unfold resolveImport
  rw [show startsWithDot "./a/../b" = true from by decide,
    show startsWithDot "./b" = true from by decide]
  simp only [if_true, hcand, ht]

/-- Witness for the amended C7 at `known = ["x/b.ts"]`, where the `.ts`
probe of the shared base path `x/b` hits. -/
theorem resolveImport_norm_relative_witness :
    resolveImport "x/y.ts" "./a/../b" ["x/b.ts"]
      = resolveImport "x/y.ts" "./b" ["x/b.ts"] :=
  resolveImport_norm_relative ["x/b.ts"] (by decide)

/-- C8: the link list is exactly the concatenation, in file iteration
order, of each file's per-import resolved links in extraction order — so a
code file issuing the same resolvable import twice contributes one link
per occurrence, with no deduplication. -/
theorem graph_links_order (ast : AstOracle) (files : List FileContext) :
    (generateDependencyGraph ast files).links
      = files.flatMap (fileEdges ast (files.map (fun f => f.name))) :=
  links_eq_flatMap ast files

/-- C9: resolution never excludes the source file itself: a file
`src/a.ts` importing `./a` (extracted via the regex fallback) produces a
self-loop link whose source and target are both `src/a.ts`. -/
theorem resolve_self_loop :
    GraphLink.mk "src/a.ts" "src/a.ts" ∈
      (generateDependencyGraph (fun _ _ => Except.error "parse")
        [FileContext.mk "src/a.ts" FileType.file "import x from \"./a\""]).links := by
  decide

/-- C10: the Python extractor captures one maximal non-whitespace run per
match, so `import os, sys` yields exactly the single raw import `os,`
(trailing comma included) and `sys` is never extracted. -/
theorem python_multi_capture :
    parsePythonImports "import os, sys" = ["os,"] ∧
    "sys" ∉ parsePythonImports "import os, sys" := by
  decide
